import Mathlib

/-!
Verification of the check-cloud-drive application against its specification.

The development shallowly embeds the relevant Python modules:

* `config.py` (`ConfigManager`): configuration dictionaries are modelled as
  insertion-ordered association lists of Python values (`PyVal`), the backing
  TOML file as a `FileState` that either is absent, fails to parse, or stores
  a parsed dictionary (the on-disk text format itself is out of scope per the
  specification, so serialisation is the identity on prepared dictionaries,
  faithful to the fact that `tomli_w.dump`/`tomllib.load` round-trip a
  null-free dictionary).
* `rclone.py` (`RcloneWorker`): the `about` output parser is embedded over
  lists of characters, and `run` over an abstract subprocess outcome.
* `ui/window.py` (`MainWindow.reorder_cards`, `_save_drive_order`,
  `_load_drives`, `DropTargetWidget.dropEvent`): the card list controller,
  with the Qt layout modelled as the ordered list of card identifiers.
* `ui/card.py` (`DriveCard.dragEnterEvent`): the per-card visual drag state;
  stylesheet contents are abstracted to opaque string tokens since only their
  identity matters.
-/

namespace CheckCloudDrives

/-! ## Python value model (for `config.py`) -/

/-- A Python value as it occurs in the configuration dictionaries of
`config.py`: `None`, strings, integers, booleans, (insertion-ordered)
dictionaries and lists. -/
inductive PyVal where
  | vnone : PyVal
  | vstr : String → PyVal
  | vint : Int → PyVal
  | vbool : Bool → PyVal
  | vdict : List (String × PyVal) → PyVal
  | vlist : List PyVal → PyVal

/-- A Python dictionary with string keys: an insertion-ordered association
list. -/
abbrev PyDict := List (String × PyVal)

/-- Python `d.get(k)` / `d[k]` lookup: value of the first entry for `k`. -/
def assocLookup {α : Type} (d : List (String × α)) (k : String) : Option α :=
  (d.find? (fun kv => kv.1 == k)).map (fun kv => kv.2)

/-- Python `d.get(k, dflt)`. -/
def assocGetD {α : Type} (d : List (String × α)) (k : String) (dflt : α) : α :=
  (assocLookup d k).getD dflt

/-- Python `k in d`. -/
def assocHasKey {α : Type} (d : List (String × α)) (k : String) : Bool :=
  d.any (fun kv => kv.1 == k)

/-- Python `d[k] = v`: replace the value in place when the key exists
(keeping its position), otherwise append the new entry at the end. -/
def assocSet {α : Type} (d : List (String × α)) (k : String) (v : α) :
    List (String × α) :=
  if assocHasKey d k then
    d.map (fun kv => if kv.1 == k then (k, v) else kv)
  else
    d ++ [(k, v)]

/-- Python `del d[k]`: remove the entry for `k`. -/
def assocErase {α : Type} (d : List (String × α)) (k : String) :
    List (String × α) :=
  d.filter (fun kv => !(kv.1 == k))

/-- Python truthiness of a `PyVal` (`if value:`). -/
def pyTruthy : PyVal → Bool
  | .vnone => false
  | .vstr s => !(s == "")
  | .vint n => !(n == 0)
  | .vbool b => b
  | .vdict d => !d.isEmpty
  | .vlist xs => !xs.isEmpty

/-! ## `models.py`: `DriveConfig` -/

/-- `models.DriveConfig`, the persisted record about one remote. -/
structure DriveConfig where
  remote_name : String
  display_name : String
  drive_type : String := "unknown"
  enabled : Bool := true
deriving Repr, DecidableEq

/-- `DriveConfig.to_dict` (`dataclasses.asdict`): field order of the
dataclass declaration. -/
def DriveConfig.to_dict (d : DriveConfig) : PyDict :=
  [("remote_name", .vstr d.remote_name),
   ("display_name", .vstr d.display_name),
   ("drive_type", .vstr d.drive_type),
   ("enabled", .vbool d.enabled)]

/-- `DriveConfig.from_dict` (`cls(**data)`): requires the two mandatory
fields, rejects unknown keys, supplies the dataclass defaults for the other
two; `none` models the `TypeError` Python would raise. -/
def DriveConfig.from_dict (data : PyDict) : Option DriveConfig :=
  if data.all (fun kv =>
      kv.1 == "remote_name" || kv.1 == "display_name" ||
      kv.1 == "drive_type" || kv.1 == "enabled") then
    match assocLookup data "remote_name", assocLookup data "display_name" with
    | some (.vstr rn), some (.vstr dn) =>
      match assocLookup data "drive_type", assocLookup data "enabled" with
      | some (.vstr dt), some (.vbool en) => some ⟨rn, dn, dt, en⟩
      | some (.vstr dt), none => some ⟨rn, dn, dt, true⟩
      | none, some (.vbool en) => some ⟨rn, dn, "unknown", en⟩
      | none, none => some ⟨rn, dn, "unknown", true⟩
      | _, _ => none
    | _, _ => none
  else none

/-! ## `config.py`: `ConfigManager` -/

/-- The backing TOML file: absent, present but failing to parse, or parsed
to a dictionary (TOML has no null, but the model does not need to enforce
that). -/
inductive FileState where
  | absent : FileState
  | corrupt : FileState
  | stored : PyDict → FileState

/-- `ConfigManager._default_config`. -/
def defaultConfig : PyDict :=
  [("drives", .vlist []),
   ("window_geometry", .vdict []),
   ("stay_on_top", .vbool false),
   ("auto_refresh_interval", .vint 300),
   ("drive_order", .vlist []),
   ("run_at_startup", .vbool false)]

/-- `ConfigManager._load_config`: parse the file when it exists and parses,
otherwise silently fall back to `_default_config` (both the missing-file path
and the `except` path return the defaults; nothing is raised). -/
def loadConfig : FileState → PyDict
  | .absent => defaultConfig
  | .corrupt => defaultConfig
  | .stored data => data

mutual

/-- `ConfigManager._prepare_for_toml`: drop `None` values (except
`window_geometry`, which becomes the empty dictionary), recursively prepare
nested dictionaries and drop them when the result is empty (again except
`window_geometry`), prepare dictionary items of lists in place, and keep
everything else unchanged. -/
def prepareForToml : PyDict → PyDict
  | [] => []
  | (k, PyVal.vnone) :: rest =>
    if k == "window_geometry" then
      (k, PyVal.vdict []) :: prepareForToml rest
    else
      prepareForToml rest
  | (k, PyVal.vdict d) :: rest =>
    let prepared := prepareForToml d
    if !prepared.isEmpty || k == "window_geometry" then
      (k, PyVal.vdict prepared) :: prepareForToml rest
    else
      prepareForToml rest
  | (k, PyVal.vlist xs) :: rest =>
    (k, PyVal.vlist (prepareListItems xs)) :: prepareForToml rest
  | (k, v) :: rest => (k, v) :: prepareForToml rest

/-- The list comprehension inside `_prepare_for_toml`: prepare dictionary
items, pass every other item (including nested lists) through unchanged. -/
def prepareListItems : List PyVal → List PyVal
  | [] => []
  | PyVal.vdict d :: rest => PyVal.vdict (prepareForToml d) :: prepareListItems rest
  | v :: rest => v :: prepareListItems rest

end

/-- The `ConfigManager` object: the in-memory `self.config` dictionary and
the backing file. -/
structure ConfigManager where
  config : PyDict
  file : FileState

/-- `ConfigManager.__init__`: load the configuration once. -/
def ConfigManager.init (f : FileState) : ConfigManager :=
  { config := loadConfig f, file := f }

/-- `ConfigManager.save_config`: write `prepareForToml self.config` to the
file (directory creation and I/O errors are out of scope of the embedded
state). -/
def ConfigManager.save_config (m : ConfigManager) : ConfigManager :=
  { m with file := .stored (prepareForToml m.config) }

/-- A failing list comprehension: apply `f` to every item, `none` as soon
as one application fails (models the exception Python would raise). -/
def mapOption {α β : Type} (f : α → Option β) : List α → Option (List β)
  | [] => some []
  | x :: xs =>
    match f x, mapOption f xs with
    | some y, some ys => some (y :: ys)
    | _, _ => none

/-- `ConfigManager.get_drives` (`none` models the exception Python would
raise on malformed data). -/
def getDrives (config : PyDict) : Option (List DriveConfig) :=
  match assocGetD config "drives" (.vlist []) with
  | .vlist items =>
    mapOption (fun item =>
      match item with
      | .vdict d => DriveConfig.from_dict d
      | _ => none) items
  | _ => none

/-- `ConfigManager.set_drives`. -/
def ConfigManager.set_drives (m : ConfigManager) (drives : List DriveConfig) :
    ConfigManager :=
  let newConfig := assocSet m.config "drives"
    (.vlist (drives.map (fun d => .vdict d.to_dict)))
  ConfigManager.save_config { m with config := newConfig }

/-- `ConfigManager.get_drive_order`. -/
def getDriveOrder (config : PyDict) : PyVal :=
  assocGetD config "drive_order" (.vlist [])

/-- `ConfigManager.set_drive_order`. -/
def ConfigManager.set_drive_order (m : ConfigManager) (order : List String) :
    ConfigManager :=
  let newConfig := assocSet m.config "drive_order" (.vlist (order.map .vstr))
  ConfigManager.save_config { m with config := newConfig }

/-- `ConfigManager.get_window_geometry`: `self.config.get("window_geometry")`
(Python `None` when the key is absent), with the empty dictionary also
reported as `None`. -/
def getWindowGeometry (config : PyDict) : PyVal :=
  let geometry := assocGetD config "window_geometry" .vnone
  match geometry with
  | .vdict [] => .vnone
  | g => g

/-- `ConfigManager.set_window_geometry`: falsy geometry is stored as the
empty dictionary. -/
def ConfigManager.set_window_geometry (m : ConfigManager) (geometry : PyVal) :
    ConfigManager :=
  let newConfig := assocSet m.config "window_geometry"
    (if pyTruthy geometry then geometry else .vdict [])
  ConfigManager.save_config { m with config := newConfig }

/-- `ConfigManager.get_stay_on_top`. -/
def getStayOnTop (config : PyDict) : PyVal :=
  assocGetD config "stay_on_top" (.vbool false)

/-- `ConfigManager.set_stay_on_top`. -/
def ConfigManager.set_stay_on_top (m : ConfigManager) (value : Bool) :
    ConfigManager :=
  let newConfig := assocSet m.config "stay_on_top" (.vbool value)
  ConfigManager.save_config { m with config := newConfig }

/-- The caller-side read of the refresh interval
(`self.config_manager.config.get("auto_refresh_interval", 300)` in
`window.py`). -/
def getAutoRefreshInterval (config : PyDict) : PyVal :=
  assocGetD config "auto_refresh_interval" (.vint 300)

/-- The caller-side read of the startup flag
(`self.config_manager.config.get("run_at_startup", False)` in `window.py`). -/
def getRunAtStartup (config : PyDict) : PyVal :=
  assocGetD config "run_at_startup" (.vbool false)

/-! ## `rclone.py`: output parsing (`RcloneWorker._parse_about_output`) -/

/-- ASCII lower-casing of one character, the relevant fragment of Python
`str.lower` (the CLI output is ASCII). -/
def lowerChar (c : Char) : Char :=
  if 65 ≤ c.toNat ∧ c.toNat ≤ 90 then Char.ofNat (c.toNat + 32) else c

/-- Python `s.lower()` on a line of characters. -/
def pyLower (l : List Char) : List Char := l.map lowerChar

/-- Python `s.strip()`: drop leading and trailing whitespace. -/
def pyStrip (l : List Char) : List Char :=
  ((l.dropWhile Char.isWhitespace).reverse.dropWhile Char.isWhitespace).reverse

/-- Python `needle == s[:len(needle)]`-style check used by `containsSub`. -/
def leadsWith : List Char → List Char → Bool
  | [], _ => true
  | _ :: _, [] => false
  | a :: as, b :: bs => a == b && leadsWith as bs

/-- Python `needle in haystack` substring test. -/
def containsSub (needle : List Char) : List Char → Bool
  | [] => needle.isEmpty
  | b :: bs => leadsWith needle (b :: bs) || containsSub needle bs

/-- Python `s.split(sep)` for a one-character separator, keeping empty
pieces (so `"".split(sep) = [""]`). -/
def splitOnChar (sep : Char) : List Char → List (List Char)
  | [] => [[]]
  | c :: rest =>
    if c == sep then
      [] :: splitOnChar sep rest
    else
      match splitOnChar sep rest with
      | [] => [[c]]
      | piece :: pieces => (c :: piece) :: pieces

/-- Python `line.split(":", 1)[1]`: everything after the first colon. -/
def afterFirstColon : List Char → List Char
  | [] => []
  | c :: rest => if c == ':' then rest else afterFirstColon rest

/-- Python `":" in line`. -/
def containsColon (l : List Char) : Bool := l.any (fun c => c == ':')

/-- The `"Unknown"` default of `_parse_about_output`. -/
def unknownVal : List Char := "Unknown".toList

/-- The result dictionary of `_parse_about_output`, with its six status
fields and the raw output. -/
structure AboutResult where
  total : List Char
  used : List Char
  free : List Char
  trash : List Char
  other : List Char
  objects : List Char
  raw : List Char
deriving Repr, DecidableEq

/-- The six status fields, in the priority order of the `elif` chain of
`_parse_about_output`. -/
inductive StatusField where
  | total | used | free | trash | other | objects
deriving Repr, DecidableEq

/-- The label substring tested for a field (`"total:"`, ...). -/
def StatusField.label : StatusField → List Char
  | .total => "total:".toList
  | .used => "used:".toList
  | .free => "free:".toList
  | .trash => "trash:".toList
  | .other => "other:".toList
  | .objects => "objects:".toList

/-- Position of a field in the `elif` chain (0 = tested first). -/
def StatusField.idx : StatusField → Nat
  | .total => 0
  | .used => 1
  | .free => 2
  | .trash => 3
  | .other => 4
  | .objects => 5

/-- All six fields in `elif`-chain order. -/
def StatusField.all : List StatusField :=
  [.total, .used, .free, .trash, .other, .objects]

/-- Projection of an `AboutResult` field. -/
def AboutResult.get (r : AboutResult) : StatusField → List Char
  | .total => r.total
  | .used => r.used
  | .free => r.free
  | .trash => r.trash
  | .other => r.other
  | .objects => r.objects

/-- The initial result dictionary of `_parse_about_output` (all six fields
`"Unknown"`, `raw` the whole output). -/
def initResult (output : List Char) : AboutResult :=
  ⟨unknownVal, unknownVal, unknownVal, unknownVal, unknownVal, unknownVal, output⟩

/-- The value expression of each branch:
`line.split(":", 1)[1].strip() if ":" in line else "Unknown"`. -/
def lineValue (line : List Char) : List Char :=
  if containsColon line then pyStrip (afterFirstColon line) else unknownVal

/-- Whether the label of field `f` occurs in the lower-cased, stripped line
(`"total:" in line_lower`, ...). -/
def hasLabel (f : StatusField) (line : List Char) : Bool :=
  containsSub f.label (pyStrip (pyLower line))

/-- The body of the `for line in lines` loop of `_parse_about_output`:
`line_lower = line.lower().strip()` followed by the `elif` chain. -/
def parseLine (r : AboutResult) (line : List Char) : AboutResult :=
  let line_lower := pyStrip (pyLower line)
  if containsSub "total:".toList line_lower then
    { r with total := lineValue line }
  else if containsSub "used:".toList line_lower then
    { r with used := lineValue line }
  else if containsSub "free:".toList line_lower then
    { r with free := lineValue line }
  else if containsSub "trash:".toList line_lower then
    { r with trash := lineValue line }
  else if containsSub "other:".toList line_lower then
    { r with other := lineValue line }
  else if containsSub "objects:".toList line_lower then
    { r with objects := lineValue line }
  else
    r

/-- `RcloneWorker._parse_about_output`: split the output on newlines and run
the loop over the initial result dictionary. -/
def parseAboutOutput (output : List Char) : AboutResult :=
  (splitOnChar '\n' output).foldl parseLine (initResult output)

/-! ## `rclone.py`: `RcloneWorker.run` -/

/-- Outcome of the `subprocess.run` call as observed by `RcloneWorker.run`:
normal completion with an exit code and captured output, expiry of the
timeout (`subprocess.TimeoutExpired`), or any other launch failure
(`except Exception as e`, e.g. executable not found). -/
inductive ProcOutcome where
  | completed : Int → List Char → List Char → ProcOutcome
  | timedOut : ProcOutcome
  | launchFailure : List Char → ProcOutcome

/-- What the worker delivers: the `finished` signal with the parsed result,
or the `error` signal with a message. -/
inductive WorkerEmit where
  | finished : String → AboutResult → WorkerEmit
  | error : String → List Char → WorkerEmit
deriving Repr, DecidableEq

/-- The `timeout=30` argument of the `subprocess.run` call. -/
def rcloneTimeoutSeconds : Nat := 30

/-- `RcloneWorker.run` as a total function of the subprocess outcome: every
branch, including both `except` clauses, emits exactly one signal (no failure
propagates as an uncaught exception). -/
def runWorker (remote_name : String) (p : ProcOutcome) : WorkerEmit :=
  match p with
  | .completed returncode stdout stderr =>
    if returncode == 0 then
      .finished remote_name (parseAboutOutput stdout)
    else
      .error remote_name (if stderr.isEmpty then "Unknown error".toList else stderr)
  | .timedOut => .error remote_name "Command timed out".toList
  | .launchFailure e => .error remote_name e

/-- `models.DriveStatus`, with its dataclass defaults. -/
structure DriveStatus where
  remote_name : String
  total : List Char := unknownVal
  used : List Char := unknownVal
  free : List Char := unknownVal
  trash : List Char := unknownVal
  other : List Char := unknownVal
  objects : List Char := unknownVal
  last_updated : List Char := "Never".toList
  error : Option (List Char) := none
deriving Repr, DecidableEq

/-- The error branch of `MainWindow._on_drive_update`:
`DriveStatus(remote_name=remote_name, error=error)`. -/
def errorStatus (remote_name : String) (e : List Char) : DriveStatus :=
  { remote_name := remote_name, error := some e }

/-! ## `ui/window.py`: the card list controller -/

/-- The reorder-relevant state of `MainWindow`: the keys of the
`drive_cards` map, the order of cards in `cards_layout` (the trailing
stretch item is not a card and never affects card indices), the persisted
`drive_order`, and a count of persistence calls. -/
structure ControllerState where
  drive_cards : List String
  layout : List String
  savedOrder : List String
  saveCount : Nat
deriving Repr, DecidableEq

/-- `MainWindow._save_drive_order`: collect the card order from the layout
and persist it through `set_drive_order`. -/
def saveDriveOrder (s : ControllerState) : ControllerState :=
  { s with savedOrder := s.layout, saveCount := s.saveCount + 1 }

/-- `MainWindow.reorder_cards`.  `List.indexOf` returns the list length for
an absent element, which models Qt's `indexOf` returning `-1` (the guard
compares against that sentinel).  `insertWidget` at an index within bounds is
`List.insertIdx`. -/
def reorder_cards (s : ControllerState) (dragged_remote target_remote : String) :
    ControllerState :=
  if dragged_remote == target_remote then s
  else if !s.drive_cards.contains dragged_remote ||
          !s.drive_cards.contains target_remote then s
  else
    let dragged_index := s.layout.indexOf dragged_remote
    let target_index := s.layout.indexOf target_remote
    if dragged_index == s.layout.length || target_index == s.layout.length then s
    else
      let after_removal := s.layout.erase dragged_remote
      let insert_index := if dragged_index < target_index then target_index else target_index
      saveDriveOrder { s with layout := after_removal.insertIdx insert_index dragged_remote }

/-- `DropTargetWidget.dropEvent`: ignore drops without text; find the card
under the drop position (`cardUnderDrop`, `none` when the drag was released
outside every card); invoke the reorder callback only for a different
target. -/
def dropEvent (s : ControllerState) (mimeText : Option String)
    (cardUnderDrop : Option String) : ControllerState :=
  match mimeText with
  | none => s
  | some dragged_remote =>
    match cardUnderDrop with
    | none => s
    | some target_remote =>
      if !(dragged_remote == target_remote) then
        reorder_cards s dragged_remote target_remote
      else s

/-! ## `ui/window.py`: `MainWindow._load_drives` reconciliation -/

/-- The dictionary comprehension
`drives_dict = {d.remote_name: d for d in drives if d.enabled}`. -/
def buildDrivesDict (drives : List DriveConfig) : List (String × DriveConfig) :=
  drives.foldl
    (fun dict d => if d.enabled then assocSet dict d.remote_name d else dict) []

/-- The first loop of `_load_drives`: walk the saved order, move matching
entries out of the dictionary into the ordered list. -/
def orderedLoop : List String → List (String × DriveConfig) →
    List DriveConfig × List (String × DriveConfig)
  | [], dict => ([], dict)
  | remote_name :: rest, dict =>
    match assocLookup dict remote_name with
    | some d =>
      let step := orderedLoop rest (assocErase dict remote_name)
      (d :: step.1, step.2)
    | none => orderedLoop rest dict

/-- `MainWindow._load_drives` (the ordering part): saved order first, then
the remaining enabled drives in dictionary (insertion) order. -/
def loadDrivesOrder (saved_order : List String) (drives : List DriveConfig) :
    List DriveConfig :=
  let dict := buildDrivesDict drives
  let step := orderedLoop saved_order dict
  step.1 ++ step.2.map (fun kv => kv.2)

/-! ## `ui/card.py`: `DriveCard.dragEnterEvent` -/

/-- Token standing for the stylesheet a card shows in its normal state (the
literal CSS text is irrelevant; only its identity matters). -/
def normalCardStyleSheet : String := "normal-card-stylesheet"

/-- Token standing for the grey drop-zone stylesheet set by
`dragEnterEvent`. -/
def dragTargetStyleSheet : String := "drag-target-grey-stylesheet"

/-- The drag-relevant visual state of one `DriveCard`. -/
structure DriveCardState where
  remote_name : String
  contentVisible : Bool
  heightFixed : Bool
  styleSheet : String
deriving Repr, DecidableEq

/-- The mime payload of a drag-enter event: whether it carries text, and the
text (the dragged card's identifier). -/
structure DragPayload where
  hasText : Bool
  text : String
deriving Repr, DecidableEq

/-- `DriveCard.dragEnterEvent`, as written: the content-hiding and
height-fixing block runs only when the payload has text and its identifier
differs from the card's own, but the final `setStyleSheet` call is dedented
to method level in the source and therefore runs unconditionally. -/
def DriveCard.dragEnterEvent (card : DriveCardState) (mime : DragPayload) :
    DriveCardState :=
  let card1 :=
    if mime.hasText && !(mime.text == card.remote_name) then
      { card with contentVisible := false, heightFixed := true }
    else
      card
  { card1 with styleSheet := dragTargetStyleSheet }

/-! ## Specification-level `Config` record (for the round-trip claim) -/

/-- A window-geometry rectangle as saved by `MainWindow`
(`set_window_geometry({"x": ..., "y": ..., "width": ..., "height": ...})`). -/
structure GeomRect where
  x : Int
  y : Int
  width : Int
  height : Int
deriving Repr, DecidableEq

/-- Encoding of a rectangle as the geometry dictionary. -/
def GeomRect.toPy (r : GeomRect) : PyVal :=
  .vdict [("x", .vint r.x), ("y", .vint r.y),
          ("width", .vint r.width), ("height", .vint r.height)]

/-- The specification's `Config` value as seen by callers. -/
structure Config where
  drives : List DriveConfig
  order : List String
  geometry : Option GeomRect
  stay_on_top : Bool
  auto_refresh_seconds : Int
  run_at_startup : Bool
deriving Repr, DecidableEq

/-- The in-memory configuration dictionary denoting a `Config` (null
geometry is Python `None`). -/
def Config.toPyDict (c : Config) : PyDict :=
  [("drives", .vlist (c.drives.map (fun d => .vdict d.to_dict))),
   ("window_geometry", match c.geometry with
     | none => .vnone
     | some r => r.toPy),
   ("stay_on_top", .vbool c.stay_on_top),
   ("auto_refresh_interval", .vint c.auto_refresh_seconds),
   ("drive_order", .vlist (c.order.map .vstr)),
   ("run_at_startup", .vbool c.run_at_startup)]

/-- Decoding a list of Python strings. -/
def pyStrList : PyVal → Option (List String)
  | .vlist xs => mapOption (fun v => match v with | .vstr s => some s | _ => none) xs
  | _ => none

/-- Decoding the caller-visible geometry (`getWindowGeometry` result) back
into the spec-level value: Python `None` is a null geometry. -/
def decodeGeometry : PyVal → Option (Option GeomRect)
  | .vnone => some none
  | .vdict [("x", .vint gx), ("y", .vint gy),
            ("width", .vint gw), ("height", .vint gh)] =>
    some (some ⟨gx, gy, gw, gh⟩)
  | _ => none

/-- Reading a whole `Config` back through the caller-facing accessors. -/
def readConfig (config : PyDict) : Option Config :=
  match getDrives config, pyStrList (getDriveOrder config),
        decodeGeometry (getWindowGeometry config),
        getStayOnTop config, getAutoRefreshInterval config,
        getRunAtStartup config with
  | some ds, some ord, some geo, .vbool st, .vint ar, .vbool ras =>
    some ⟨ds, ord, geo, st, ar, ras⟩
  | _, _, _, _, _, _ => none

/-- The `save(c); load()` cycle of the round-trip claim: put the dictionary
denoting `c` into a manager, `save_config`, and re-read the file. -/
def saveLoadConfig (c : Config) : PyDict :=
  loadConfig (ConfigManager.save_config ⟨c.toPyDict, .absent⟩).file

/-! ## Setter operations (for the load-mutate-save claim) -/

/-- The geometry argument of `set_window_geometry` as the application passes
it: a rectangle dictionary, or Python `None`. -/
def geomArg : Option GeomRect → PyVal
  | none => .vnone
  | some r => r.toPy

/-- One call to an individual configuration setter, with the argument each
call site passes (`set_window_geometry` receives a rectangle or `None`). -/
inductive SetterOp where
  | setDrives : List DriveConfig → SetterOp
  | setDriveOrder : List String → SetterOp
  | setWindowGeometry : Option GeomRect → SetterOp
  | setStayOnTop : Bool → SetterOp

/-- Apply a setter call to the manager (as the code does: mutate the cached
`self.config`, then `save_config`). -/
def applyOp (m : ConfigManager) : SetterOp → ConfigManager
  | .setDrives ds => m.set_drives ds
  | .setDriveOrder o => m.set_drive_order o
  | .setWindowGeometry g => m.set_window_geometry (geomArg g)
  | .setStayOnTop b => m.set_stay_on_top b

/-- Apply a sequence of setter calls in order. -/
def applyOps (m : ConfigManager) (ops : List SetterOp) : ConfigManager :=
  ops.foldl applyOp m

/-- The single mutation a setter performs on a configuration dictionary. -/
def opMutation (config : PyDict) : SetterOp → PyDict
  | .setDrives ds =>
    assocSet config "drives" (.vlist (ds.map (fun d => .vdict d.to_dict)))
  | .setDriveOrder o =>
    assocSet config "drive_order" (.vlist (o.map .vstr))
  | .setWindowGeometry g =>
    assocSet config "window_geometry"
      (if pyTruthy (geomArg g) then geomArg g else .vdict [])
  | .setStayOnTop b =>
    assocSet config "stay_on_top" (.vbool b)

/-- The invariant sustained across setter calls: the backing file parses to
the cached configuration, and the cached configuration is reproduced
verbatim by the serializer. -/
def managerInv (m : ConfigManager) : Prop :=
  loadConfig m.file = m.config ∧ prepareForToml m.config = m.config

/-- The claim's load-mutate-save cycle as a function of the backing file
alone: re-load the current file contents, apply the one mutation, save. -/
def specSetterFile (f : FileState) (op : SetterOp) : FileState :=
  .stored (prepareForToml (opMutation (loadConfig f) op))

/-- A file whose parse the serializer reproduces verbatim (no droppable
nulls or empty non-geometry tables); `absent` and `corrupt` files qualify
because their fallback is the default configuration. -/
def cleanFile : FileState → Prop
  | .absent => True
  | .corrupt => True
  | .stored d => prepareForToml d = d


/-! ## Auxiliary definitions used by the theorems -/

/-- Entry-wise form of `_prepare_for_toml`: what one key/value pair becomes
(`none` when the entry is skipped). -/
def prepEntryVal (k : String) : PyVal → Option PyVal
  | .vnone => if k == "window_geometry" then some (.vdict []) else none
  | .vdict d =>
    if !(prepareForToml d).isEmpty || k == "window_geometry" then
      some (.vdict (prepareForToml d))
    else none
  | .vlist xs => some (.vlist (prepareListItems xs))
  | v => some v

/-- Entry-wise form of `_prepare_for_toml` on pairs. -/
def prepEntry (kv : String × PyVal) : Option (String × PyVal) :=
  (prepEntryVal kv.1 kv.2).map (fun v => (kv.1, v))

/-- Overwrite one field of an `AboutResult`. -/
def setField (r : AboutResult) (f : StatusField) (v : List Char) : AboutResult :=
  match f with
  | .total => { r with total := v }
  | .used => { r with used := v }
  | .free => { r with free := v }
  | .trash => { r with trash := v }
  | .other => { r with other := v }
  | .objects => { r with objects := v }

instance : Fintype StatusField :=
  Fintype.ofList
    [StatusField.total, StatusField.used, StatusField.free,
     StatusField.trash, StatusField.other, StatusField.objects]
    (by intro x; cases x <;> decide)

/-- A line of CLI output is well-formed when it contains at most one of the
six labels (case-insensitively, colon included). -/
def wellFormedLine (line : List Char) : Prop :=
  StatusField.all.countP (fun f => hasLabel f line) ≤ 1

instance (line : List Char) : Decidable (wellFormedLine line) := by
  unfold wellFormedLine; infer_instance


/-! # Theorems -/

/-! ## C5: configuration load recovery -/

/-- C5.  Config load recovery: when the backing file is absent or fails to
parse, `_load_config` returns exactly the fixed default configuration
(entries/drives `[]`, order `[]`, `stay_on_top = false`,
`auto_refresh_interval = 300`, `run_at_startup = false`, and a geometry that
callers observe as `None`), as a total function — silently, without
raising. -/
theorem config_load_recovery_defaults :
    loadConfig .absent = defaultConfig ∧
    loadConfig .corrupt = defaultConfig ∧
    getDrives defaultConfig = some [] ∧
    pyStrList (getDriveOrder defaultConfig) = some [] ∧
    getStayOnTop defaultConfig = .vbool false ∧
    getAutoRefreshInterval defaultConfig = .vint 300 ∧
    getRunAtStartup defaultConfig = .vbool false ∧
    getWindowGeometry defaultConfig = .vnone := by
  refine ⟨rfl, rfl, rfl, rfl, rfl, rfl, rfl, rfl⟩

/-! ## C4: fetcher error mapping -/

/-- C4.  Fetcher error mapping: on exit code 0 the worker delivers the
parsed snapshot; on non-zero exit it delivers the process stderr, or the
generic message when stderr is empty; on timeout expiry (the fixed
30-second argument) it delivers `"Command timed out"`; on any other launch
failure it delivers the exception text.  `runWorker` is a total function of
the subprocess outcome (no failure propagates as an uncaught exception), and
the error branch of `_on_drive_update` builds a `DriveStatus` whose six
status fields keep their `"Unknown"` defaults. -/
theorem worker_error_mapping :
    (∀ remote stdout stderr,
      runWorker remote (.completed 0 stdout stderr) =
        .finished remote (parseAboutOutput stdout)) ∧
    (∀ remote rc stdout stderr, rc ≠ 0 →
      runWorker remote (.completed rc stdout stderr) =
        .error remote (if stderr.isEmpty then "Unknown error".toList else stderr)) ∧
    (∀ remote, runWorker remote .timedOut =
      .error remote "Command timed out".toList) ∧
    rcloneTimeoutSeconds = 30 ∧
    (∀ remote e, runWorker remote (.launchFailure e) = .error remote e) ∧
    (∀ remote e,
      (errorStatus remote e).total = unknownVal ∧
      (errorStatus remote e).used = unknownVal ∧
      (errorStatus remote e).free = unknownVal ∧
      (errorStatus remote e).trash = unknownVal ∧
      (errorStatus remote e).other = unknownVal ∧
      (errorStatus remote e).objects = unknownVal ∧
      (errorStatus remote e).error = some e) := by
  refine ⟨fun _ _ _ => rfl, ?_, fun _ => rfl, rfl, fun _ _ => rfl,
    fun _ _ => ⟨rfl, rfl, rfl, rfl, rfl, rfl, rfl⟩⟩
  intro remote rc stdout stderr hrc
  simp [runWorker, hrc]

/-- Witness for C4 at a concrete non-zero exit. -/
theorem worker_error_mapping_witness :
    runWorker "gdrive" (.completed 1 [] "boom".toList) =
      .error "gdrive" "boom".toList := by
  have h := worker_error_mapping.2.1 "gdrive" 1 [] "boom".toList (by decide)
  simpa using h

/-! ## C3: no-op drops are frame-preserving -/

/-- C3.  No-op drops are frame-preserving: dropping a card onto itself,
releasing the drag outside all cards (no card under the drop position, or a
payload without text), or dropping when either identifier is absent from the
`drive_cards` map, leaves the whole controller state — in particular the
card order, the persisted order, and the persistence-call count —
unchanged. -/
theorem noop_drops_frame_preserving :
    (∀ (s : ControllerState) (a : String), reorder_cards s a a = s) ∧
    (∀ (s : ControllerState) (a b : String),
      s.drive_cards.contains a = false ∨ s.drive_cards.contains b = false →
      reorder_cards s a b = s) ∧
    (∀ (s : ControllerState) (mimeText : Option String),
      dropEvent s mimeText none = s) ∧
    (∀ (s : ControllerState) (target : Option String),
      dropEvent s none target = s) ∧
    (∀ (s : ControllerState) (a : String), dropEvent s (some a) (some a) = s) := by
  refine ⟨?_, ?_, ?_, ?_, ?_⟩
  · intro s a; simp [reorder_cards]
  · intro s a b h
    unfold reorder_cards
    split_ifs with h1 h2 <;>
      first
      | rfl
      | (exfalso
         simp only [Bool.or_eq_true, Bool.not_eq_true'] at h2
         rcases h with h | h <;> simp_all)
  · intro s mimeText; cases mimeText <;> rfl
  · intro s target; rfl
  · intro s a; simp [dropEvent]

/-- Witness for C3 at a concrete state with an absent identifier. -/
theorem noop_drops_frame_preserving_witness :
    reorder_cards ⟨["X"], ["X"], ["X"], 0⟩ "Y" "X" = ⟨["X"], ["X"], ["X"], 0⟩ := by
  exact noop_drops_frame_preserving.2.1 ⟨["X"], ["X"], ["X"], 0⟩ "Y" "X"
    (Or.inl (by decide))

/-! ## C9: drop-target appearance (code bug) -/

/-- C9 (code bug).  The claim says a card changes nothing about its visual
state — its stylesheet included — on a drag-enter whose payload identifier
equals the card\'s own.  In the source, the `setStyleSheet` call of
`DriveCard.dragEnterEvent` is dedented to method level (its explanatory
comment is still inside the `if`), so the grey drop-zone stylesheet is
applied unconditionally: at the failing input (a card receiving a drag-enter
carrying its own identifier) the content stays visible, as the claim
expects, but the stylesheet is changed to the drop-zone one. -/
theorem drag_enter_unconditional_style_bug :
    (DriveCard.dragEnterEvent
        ⟨"gdrive", true, false, normalCardStyleSheet⟩
        ⟨true, "gdrive"⟩).styleSheet = dragTargetStyleSheet ∧
    (DriveCard.dragEnterEvent
        ⟨"gdrive", true, false, normalCardStyleSheet⟩
        ⟨true, "gdrive"⟩).contentVisible = true ∧
    (DriveCard.dragEnterEvent
        ⟨"gdrive", true, false, normalCardStyleSheet⟩
        ⟨false, "other"⟩).styleSheet = dragTargetStyleSheet ∧
    normalCardStyleSheet ≠ dragTargetStyleSheet := by
  refine ⟨rfl, rfl, rfl, by decide⟩

/-! ## C1: reorder commit correctness -/

theorem idxOf_cons_self {α : Type} [BEq α] [LawfulBEq α] (a : α) (l : List α) :
    (a :: l).indexOf a = 0 := by
  simp [List.indexOf, List.findIdx_cons]

theorem idxOf_cons_ne {α : Type} [BEq α] [LawfulBEq α] {a b : α} (l : List α) (h : b ≠ a) :
    (b :: l).indexOf a = l.indexOf a + 1 := by
  have hb : (b == a) = false := by simp [h]
  simp [List.indexOf, List.findIdx_cons, hb]

theorem idxOf_append_not_mem {α : Type} [BEq α] [LawfulBEq α] {a : α} {l₁ : List α}
    (l₂ : List α) (h : a ∉ l₁) :
    (l₁ ++ l₂).indexOf a = l₁.length + l₂.indexOf a := by
  induction l₁ with
  | nil => simp
  | cons x t ih =>
    have hx : x ≠ a := by rintro rfl; exact h (List.mem_cons_self _ _)
    rw [List.cons_append, idxOf_cons_ne _ hx, ih (fun hm => h (List.mem_cons_of_mem _ hm))]
    simp only [List.length_cons]
    omega

theorem insertIdx_append_length {α : Type} (p q : List α) (x : α) :
    (p ++ q).insertIdx p.length x = p ++ x :: q := by
  induction p with
  | nil => simp
  | cons h t ih => simpa [List.insertIdx_succ_cons] using ih

theorem nodup_decomp_facts {α : Type} [DecidableEq α] (u v w : List α) (a b : α)
    (h : (u ++ a :: (v ++ b :: w)).Nodup) :
    a ∉ u ∧ a ∉ v ∧ a ∉ w ∧ a ≠ b ∧ b ∉ u ∧ b ∉ v ∧ b ∉ w := by
  simp only [List.nodup_append, List.nodup_cons, List.mem_append, List.mem_cons,
    List.disjoint_left] at h
  obtain ⟨hu, ⟨ha, hv, ⟨hbw, hw⟩, hvd⟩, hud⟩ := h
  exact ⟨fun hm => hud hm (Or.inl rfl),
    fun hm => ha (Or.inl hm),
    fun hm => ha (Or.inr (Or.inr hm)),
    fun he => ha (Or.inr (Or.inl he)),
    fun hm => hud hm (Or.inr (Or.inr (Or.inl rfl))),
    fun hm => hvd hm (Or.inl rfl), hbw⟩

/-- C1.  Reorder commit correctness.  Dragging card `a` onto a different
card `b` removes `a` and re-inserts it at `b`'s index exactly as the claim
states, so the dragged card lands at the target's pre-drop position: when
`a` was before `b` (moving down, layout `u ++ a :: (v ++ b :: w)`) the new
layout is `u ++ (v ++ b :: a :: w)` — the target and every card between
them shift up by one — and when `a` was after `b` (moving up, layout
`u ++ b :: (v ++ a :: w)`) the new layout is `u ++ a :: b :: (v ++ w)` —
the target and every card between them shift down by one.  In both cases
the new index of `a` equals `b`'s pre-drop index, the two concrete
examples of the claim hold, and the resulting order is persisted
(`savedOrder` becomes the new layout, the persistence-call count grows by
one). -/
theorem reorder_commit_correct :
    (∀ (s : ControllerState) (a b : String) (u v w : List String),
      s.layout = u ++ a :: (v ++ b :: w) →
      s.layout.Nodup →
      s.drive_cards.contains a = true →
      s.drive_cards.contains b = true →
      (reorder_cards s a b).layout = u ++ (v ++ b :: a :: w) ∧
      (reorder_cards s a b).layout.indexOf a = s.layout.indexOf b ∧
      (reorder_cards s a b).savedOrder = (reorder_cards s a b).layout ∧
      (reorder_cards s a b).saveCount = s.saveCount + 1) ∧
    (∀ (s : ControllerState) (a b : String) (u v w : List String),
      s.layout = u ++ b :: (v ++ a :: w) →
      s.layout.Nodup →
      s.drive_cards.contains a = true →
      s.drive_cards.contains b = true →
      (reorder_cards s a b).layout = u ++ a :: b :: (v ++ w) ∧
      (reorder_cards s a b).layout.indexOf a = s.layout.indexOf b ∧
      (reorder_cards s a b).savedOrder = (reorder_cards s a b).layout ∧
      (reorder_cards s a b).saveCount = s.saveCount + 1) ∧
    (reorder_cards ⟨["A", "B", "C", "D"], ["A", "B", "C", "D"], [], 0⟩ "A" "C").layout
      = ["B", "C", "A", "D"] ∧
    (reorder_cards ⟨["A", "B", "C", "D"], ["A", "B", "C", "D"], [], 0⟩ "D" "B").layout
      = ["A", "D", "B", "C"] := by
  refine ⟨?_, ?_, by decide, by decide⟩
  · intro s a b u v w hl hnd hca hcb
    obtain ⟨f1, f2, f3, f4, f5, f6, f7⟩ := nodup_decomp_facts u v w a b (hl ▸ hnd)
    have hca' : a ∈ s.drive_cards := by simpa using hca
    have hcb' : b ∈ s.drive_cards := by simpa using hcb
    have hia : s.layout.indexOf a = u.length := by
      rw [hl, idxOf_append_not_mem _ f1, idxOf_cons_self]
      try omega
    have hib : s.layout.indexOf b = u.length + (v.length + 1) := by
      rw [hl, idxOf_append_not_mem _ f5, idxOf_cons_ne _ f4,
        idxOf_append_not_mem _ f6, idxOf_cons_self]
      try omega
    have hlen : s.layout.length = u.length + v.length + w.length + 2 := by
      rw [hl]
      simp only [List.length_append, List.length_cons]
      omega
    have hre : reorder_cards s a b =
        saveDriveOrder { s with layout := u ++ (v ++ b :: a :: w) } := by
      unfold reorder_cards
      rw [if_neg (show ¬((a == b) = true) by simp [f4]),
        if_neg (show ¬((!s.drive_cards.contains a || !s.drive_cards.contains b) = true) by
          simp [hca', hcb'])]
      dsimp only
      rw [if_neg (show ¬((s.layout.indexOf a == s.layout.length ||
          s.layout.indexOf b == s.layout.length) = true) by
        rw [Bool.or_eq_true, not_or, beq_iff_eq, beq_iff_eq]
        omega)]
      have herase : s.layout.erase a = ((u ++ v) ++ [b]) ++ w := by
        rw [hl, List.erase_append_right _ f1, List.erase_cons_head]
        simp
      have hidx : (if s.layout.indexOf a < s.layout.indexOf b then
          s.layout.indexOf b else s.layout.indexOf b) = ((u ++ v) ++ [b]).length := by
        rw [if_pos (by omega), hib]
        simp only [List.length_append, List.length_cons, List.length_nil]
        omega
      rw [herase, hidx, insertIdx_append_length]
      simp
    refine ⟨by rw [hre]; rfl, ?_, by rw [hre]; rfl, by rw [hre]; rfl⟩
    have hlay : (reorder_cards s a b).layout = u ++ (v ++ b :: a :: w) := by
      rw [hre]; rfl
    rw [hlay, hib, idxOf_append_not_mem _ f1, idxOf_append_not_mem _ f2,
      idxOf_cons_ne _ (Ne.symm f4), idxOf_cons_self]
    try omega
  · intro s a b u v w hl hnd hca hcb
    obtain ⟨g1, g2, g3, g4, g5, g6, g7⟩ := nodup_decomp_facts u v w b a (hl ▸ hnd)
    have hca' : a ∈ s.drive_cards := by simpa using hca
    have hcb' : b ∈ s.drive_cards := by simpa using hcb
    have hia : s.layout.indexOf a = u.length + (v.length + 1) := by
      rw [hl, idxOf_append_not_mem _ g5, idxOf_cons_ne _ g4,
        idxOf_append_not_mem _ g6, idxOf_cons_self]
      try omega
    have hib : s.layout.indexOf b = u.length := by
      rw [hl, idxOf_append_not_mem _ g1, idxOf_cons_self]
      try omega
    have hlen : s.layout.length = u.length + v.length + w.length + 2 := by
      rw [hl]
      simp only [List.length_append, List.length_cons]
      omega
    have hre : reorder_cards s a b =
        saveDriveOrder { s with layout := u ++ a :: b :: (v ++ w) } := by
      unfold reorder_cards
      rw [if_neg (show ¬((a == b) = true) by simp [Ne.symm g4]),
        if_neg (show ¬((!s.drive_cards.contains a || !s.drive_cards.contains b) = true) by
          simp [hca', hcb'])]
      dsimp only
      rw [if_neg (show ¬((s.layout.indexOf a == s.layout.length ||
          s.layout.indexOf b == s.layout.length) = true) by
        rw [Bool.or_eq_true, not_or, beq_iff_eq, beq_iff_eq]
        omega)]
      have herase : s.layout.erase a = u ++ (b :: (v ++ w)) := by
        rw [hl, List.erase_append_right _ g5, List.erase_cons_tail (by simp [g4]),
          List.erase_append_right _ g6, List.erase_cons_head]
      have hidx : (if s.layout.indexOf a < s.layout.indexOf b then
          s.layout.indexOf b else s.layout.indexOf b) = u.length := by
        rw [if_neg (by omega)]
        exact hib
      rw [herase, hidx, insertIdx_append_length]
    refine ⟨by rw [hre]; rfl, ?_, by rw [hre]; rfl, by rw [hre]; rfl⟩
    have hlay : (reorder_cards s a b).layout = u ++ a :: b :: (v ++ w) := by
      rw [hre]; rfl
    rw [hlay, hib, idxOf_append_not_mem _ g5, idxOf_cons_self]
    try omega

/-- Witness for C1: the down-case applied to the concrete `[A,B,C,D]`
layout, dragging `A` onto `C`. -/
theorem reorder_commit_correct_witness :
    (reorder_cards ⟨["A", "B", "C", "D"], ["A", "B", "C", "D"], [], 0⟩ "A" "C").layout
        = ["B", "C", "A", "D"] ∧
    (reorder_cards ⟨["A", "B", "C", "D"], ["A", "B", "C", "D"], [], 0⟩ "A" "C").saveCount
        = 1 := by
  have h := reorder_commit_correct.1 ⟨["A", "B", "C", "D"], ["A", "B", "C", "D"], [], 0⟩
    "A" "C" [] ["B"] ["D"] rfl (by decide) (by decide) (by decide)
  exact ⟨h.1, h.2.2.2⟩

/-! ## C10 and C2: the status-output parser -/

theorem get_setField_self (r : AboutResult) (f : StatusField) (v : List Char) :
    (setField r f v).get f = v := by
  cases f <;> rfl

theorem get_setField_ne (r : AboutResult) (f g : StatusField) (v : List Char)
    (h : g ≠ f) : (setField r f v).get g = r.get g := by
  cases f <;> cases g <;> simp_all [setField, AboutResult.get]

/-- The `elif` chain of `_parse_about_output` assigns the first label (in
chain order) found in the lower-cased stripped line, and nothing else. -/
theorem parseLine_eq_find (r : AboutResult) (line : List Char) :
    parseLine r line =
      match StatusField.all.find? (fun f => hasLabel f line) with
      | none => r
      | some f => setField r f (lineValue line) := by
  unfold parseLine
  dsimp only
  split_ifs <;>
    simp_all [StatusField.all, List.find?, hasLabel, StatusField.label, setField]

theorem find?_label_first : ∀ (p : StatusField → Bool) (h g : StatusField),
    StatusField.all.find? p = some h → p g = true → h.idx ≤ g.idx := by decide

theorem find?_label_of_first : ∀ (p : StatusField → Bool) (f : StatusField),
    p f = true → (∀ g, g.idx < f.idx → p g = false) →
    StatusField.all.find? p = some f := by decide

theorem countP_le_one_unique : ∀ (p : StatusField → Bool) (f g : StatusField),
    StatusField.all.countP p ≤ 1 → p f = true → f ≠ g → p g = false := by decide

/-- C10.  Per-line field priority: a line updates at most one field; a label
earlier in the fixed chain order (total, used, free, trash, other, objects)
blocks every later field even when that later field's label also occurs; the
first label found (as a substring of the lower-cased line) is assigned; and
a label is recognized anywhere within the line, e.g. `"subtotal: 5"` assigns
the total field. -/
theorem parse_line_priority :
    (∀ (r : AboutResult) (line : List Char) (f g : StatusField), f ≠ g →
      (parseLine r line).get f ≠ r.get f → (parseLine r line).get g = r.get g) ∧
    (∀ (r : AboutResult) (line : List Char) (f g : StatusField),
      hasLabel g line = true → g.idx < f.idx →
      (parseLine r line).get f = r.get f) ∧
    (∀ (r : AboutResult) (line : List Char) (f : StatusField),
      hasLabel f line = true → (∀ g, g.idx < f.idx → hasLabel g line = false) →
      (parseLine r line).get f = lineValue line) ∧
    (parseLine (initResult []) "subtotal: 5".toList).get .total = "5".toList := by
  refine ⟨?_, ?_, ?_, by decide⟩
  · intro r line f g hfg hne
    rw [parseLine_eq_find] at hne ⊢
    cases hfind : StatusField.all.find? (fun f => hasLabel f line) with
    | none =>
      rw [hfind] at hne
      try exact absurd rfl hne
    | some h0 =>
      rw [hfind] at hne
      by_cases hfh : f = h0
      · subst hfh
        exact get_setField_ne r f g _ (Ne.symm hfg)
      · exact absurd (get_setField_ne r h0 f _ hfh) hne
  · intro r line f g hg hlt
    rw [parseLine_eq_find]
    cases hfind : StatusField.all.find? (fun f => hasLabel f line) with
    | none => rfl
    | some h0 =>
      have hle := find?_label_first _ h0 g hfind hg
      exact get_setField_ne r h0 f _ (fun he => by subst he; omega)
  · intro r line f hf hothers
    rw [parseLine_eq_find, find?_label_of_first _ f hf hothers]
    exact get_setField_self r f _

/-- Witness for C10: in `"total: 1 used: 2"` the `used` label occurs but the
earlier `total` label wins, leaving the `used` field untouched. -/
theorem parse_line_priority_witness :
    (parseLine (initResult []) "total: 1 used: 2".toList).get .used
      = (initResult []).get .used := by
  exact parse_line_priority.2.1 (initResult []) "total: 1 used: 2".toList
    .used .total (by decide) (by decide)

theorem leadsWith_mem {c : Char} : ∀ (n h : List Char),
    leadsWith n h = true → c ∈ n → c ∈ h := by
  intro n
  induction n with
  | nil => intro h _ hc; exact absurd hc (List.not_mem_nil c)
  | cons a as ih =>
    intro h hlw hc
    cases h with
    | nil => simp [leadsWith] at hlw
    | cons b bs =>
      simp only [leadsWith, Bool.and_eq_true, beq_iff_eq] at hlw
      rcases List.mem_cons.mp hc with rfl | hc'
      · rw [hlw.1]; exact List.mem_cons_self _ _
      · exact List.mem_cons_of_mem _ (ih bs hlw.2 hc')

theorem containsSub_mem {c : Char} (n : List Char) : ∀ (h : List Char),
    containsSub n h = true → c ∈ n → c ∈ h := by
  intro h
  induction h with
  | nil =>
    intro hcs hc
    simp only [containsSub, List.isEmpty_iff] at hcs
    subst hcs
    exact absurd hc (List.not_mem_nil c)
  | cons b bs ih =>
    intro hcs hc
    simp only [containsSub, Bool.or_eq_true] at hcs
    rcases hcs with hlw | hcs'
    · exact leadsWith_mem n (b :: bs) hlw hc
    · exact List.mem_cons_of_mem _ (ih hcs' hc)

theorem mem_of_mem_pyStrip {c : Char} {l : List Char} (h : c ∈ pyStrip l) : c ∈ l := by
  unfold pyStrip at h
  rw [List.mem_reverse] at h
  have h1 : c ∈ (l.dropWhile Char.isWhitespace).reverse :=
    (List.dropWhile_sublist _).mem h
  rw [List.mem_reverse] at h1
  exact (List.dropWhile_sublist _).mem h1

theorem char_toNat_ofNat_of_lt {n : Nat} (h : n < 55296) :
    (Char.ofNat n).toNat = n := by
  rw [Char.ofNat, dif_pos (Or.inl h)]
  rfl

theorem lowerChar_eq_colon {c : Char} (h : lowerChar c = ':') : c = ':' := by
  unfold lowerChar at h
  split_ifs at h with hc
  · exfalso
    have h58 : (Char.ofNat (c.toNat + 32)).toNat = c.toNat + 32 :=
      char_toNat_ofNat_of_lt (by omega)
    rw [h] at h58
    rw [show (':').toNat = 58 from rfl] at h58
    omega
  · exact h

theorem hasLabel_colon {f : StatusField} {line : List Char}
    (h : hasLabel f line = true) : containsColon line = true := by
  have hmem : ':' ∈ pyStrip (pyLower line) :=
    containsSub_mem f.label _ h (by cases f <;> decide)
  have h2 : ':' ∈ pyLower line := mem_of_mem_pyStrip hmem
  obtain ⟨c, hc, hlc⟩ := List.mem_map.mp h2
  obtain rfl := lowerChar_eq_colon hlc
  unfold containsColon
  exact List.any_eq_true.mpr ⟨':', hc, by simp⟩

theorem lineValue_of_hasLabel {f : StatusField} {line : List Char}
    (h : hasLabel f line = true) :
    lineValue line = pyStrip (afterFirstColon line) := by
  unfold lineValue
  rw [if_pos (hasLabel_colon h)]

theorem get_initResult (output : List Char) (f : StatusField) :
    (initResult output).get f = unknownVal := by
  cases f <;> rfl

theorem parseLine_get_of_not_label {r : AboutResult} {line : List Char}
    {f : StatusField} (h : hasLabel f line = false) :
    (parseLine r line).get f = r.get f := by
  rw [parseLine_eq_find]
  cases hfind : StatusField.all.find? (fun f => hasLabel f line) with
  | none => rfl
  | some h0 =>
    have hpos := List.find?_some hfind
    exact get_setField_ne r h0 f _ (fun he => by subst he; rw [h] at hpos; cases hpos)

theorem find?_append_or {α : Type} (p : α → Bool) (l₁ l₂ : List α) :
    (l₁ ++ l₂).find? p = ((l₁.find? p).orElse (fun _ => l₂.find? p)) := by
  induction l₁ with
  | nil => simp [Option.orElse]
  | cons x t ih => by_cases hx : p x <;> simp [List.find?, hx, ih, Option.orElse]

theorem foldl_parseLine_get (f : StatusField) : ∀ (lines : List (List Char))
    (r : AboutResult), (∀ l ∈ lines, wellFormedLine l) →
    (lines.foldl parseLine r).get f =
      match lines.reverse.find? (fun l => hasLabel f l) with
      | none => r.get f
      | some l => lineValue l := by
  intro lines
  induction lines with
  | nil => intro r _; rfl
  | cons l ls ih =>
    intro r hw
    have hwl : wellFormedLine l := hw l (List.mem_cons_self _ _)
    rw [List.foldl_cons, ih (parseLine r l) (fun x hx => hw x (List.mem_cons_of_mem _ hx)),
      List.reverse_cons, find?_append_or]
    cases hfind : ls.reverse.find? (fun l => hasLabel f l) with
    | some l' => rfl
    | none =>
      show (parseLine r l).get f =
        match List.find? (fun l => hasLabel f l) [l] with
        | none => r.get f
        | some l => lineValue l
      by_cases hl : hasLabel f l = true
      · rw [show (List.find? (fun l => hasLabel f l) [l]) = some l by
          simp [List.find?, hl]]
        rw [parseLine_eq_find, find?_label_of_first _ f hl
          (fun g hlt => countP_le_one_unique _ f g hwl hl (fun he => by subst he; omega))]
        exact get_setField_self r f _
      · have hl2 : hasLabel f l = false := by rwa [Bool.not_eq_true] at hl
        rw [show (List.find? (fun l => hasLabel f l) [l]) = none by
          simp [List.find?, hl2]]
        exact parseLine_get_of_not_label hl2

/-- C2.  Status-output parsing: for every well-formed output (each line
contains at most one of the six labels, case-insensitively), each field of
the parse result is `"Unknown"` when its label occurs on no line, and
otherwise equals everything after the first colon of the *last* line
containing the label, stripped — so labels may appear in any order and any
number of times, the last occurrence wins, unrelated lines are ignored, and
a value containing a colon keeps everything after the line's first colon
(the claim's concrete example is the second conjunct). -/
theorem parse_about_wellformed_fields :
    (∀ (output : List Char),
      (∀ l ∈ splitOnChar '\n' output, wellFormedLine l) →
      ∀ f : StatusField,
        (parseAboutOutput output).get f =
          match (splitOnChar '\n' output).reverse.find? (fun l => hasLabel f l) with
          | none => unknownVal
          | some l => pyStrip (afterFirstColon l)) ∧
    (parseAboutOutput "Total:   100 GB: Extra info".toList).total
      = "100 GB: Extra info".toList := by
  refine ⟨?_, by decide⟩
  intro output hw f
  unfold parseAboutOutput
  rw [foldl_parseLine_get f _ _ hw]
  cases hfind : (splitOnChar '\n' output).reverse.find? (fun l => hasLabel f l) with
  | none => exact get_initResult output f
  | some l => exact lineValue_of_hasLabel (List.find?_some hfind)

/-- Witness for C2: the spec's example output, with `total`/`used` populated
and a missing label left `"Unknown"`. -/
theorem parse_about_wellformed_fields_witness :
    (parseAboutOutput "TOTAL:   200 GB\nUSED:    100 GB\n".toList).get .total
      = "200 GB".toList ∧
    (parseAboutOutput "TOTAL:   200 GB\nUSED:    100 GB\n".toList).get .free
      = unknownVal := by
  have h := parse_about_wellformed_fields.1 "TOTAL:   200 GB\nUSED:    100 GB\n".toList
    (by decide)
  refine ⟨?_, ?_⟩
  · rw [h .total]; decide
  · rw [h .free]; decide

/-! ## C8: DisplayOrder reconciliation at load -/

theorem assocHasKey_eq_false {α : Type} (d : List (String × α)) (k : String)
    (h : ∀ kv ∈ d, kv.1 ≠ k) : assocHasKey d k = false := by
  unfold assocHasKey
  rw [List.any_eq_false]
  intro kv hkv
  simp [h kv hkv]

theorem assocLookup_erase_ne {α : Type} (d : List (String × α)) (k k' : String)
    (h : k' ≠ k) : assocLookup (assocErase d k) k' = assocLookup d k' := by
  induction d with
  | nil => rfl
  | cons kv rest ih =>
    rcases kv with ⟨k₀, v₀⟩
    by_cases hk : k₀ = k
    · have he : (!(k₀ == k)) = false := by simp [hk]
      have h2 : (k₀ == k') = false := by simp [hk, Ne.symm h]
      rw [show assocErase ((k₀, v₀) :: rest) k = assocErase rest k by
        simp [assocErase, List.filter_cons, he]]
      rw [ih]
      rw [show assocLookup ((k₀, v₀) :: rest) k' = assocLookup rest k' by
        simp [assocLookup, List.find?, h2]]
    · have he : (!(k₀ == k)) = true := by simp [hk]
      rw [show assocErase ((k₀, v₀) :: rest) k = (k₀, v₀) :: assocErase rest k by
        simp [assocErase, List.filter_cons, he]]
      by_cases hk' : k₀ = k'
      · simp [assocLookup, List.find?, hk']
      · have h2 : (k₀ == k') = false := by simp [hk']
        rw [show assocLookup ((k₀, v₀) :: assocErase rest k) k'
            = assocLookup (assocErase rest k) k' by
          simp [assocLookup, List.find?, h2]]
        rw [ih]
        rw [show assocLookup ((k₀, v₀) :: rest) k' = assocLookup rest k' by
          simp [assocLookup, List.find?, h2]]

theorem assocLookup_none_keys {α : Type} {d : List (String × α)} {k : String}
    (h : assocLookup d k = none) : ∀ kv ∈ d, kv.1 ≠ k := by
  unfold assocLookup at h
  rw [Option.map_eq_none'] at h
  rw [List.find?_eq_none] at h
  intro kv hkv
  have := h kv hkv
  simpa using this

theorem buildDrivesDict_aux : ∀ (drives : List DriveConfig)
    (acc : List (String × DriveConfig)),
    (acc.map Prod.fst ++
      (drives.filter (fun d => d.enabled)).map (fun d => d.remote_name)).Nodup →
    drives.foldl (fun dict d => if d.enabled then assocSet dict d.remote_name d else dict) acc
      = acc ++ (drives.filter (fun d => d.enabled)).map (fun d => (d.remote_name, d)) := by
  intro drives
  induction drives with
  | nil => intro acc _; simp
  | cons d rest ih =>
    intro acc hnd
    by_cases hd : d.enabled
    · have hfil : (d :: rest).filter (fun d => d.enabled) =
          d :: rest.filter (fun d => d.enabled) := by
        simp [List.filter_cons, hd]
      rw [hfil] at hnd
      simp only [List.map_cons] at hnd
      have hnotmem : d.remote_name ∉ acc.map Prod.fst := by
        rw [List.nodup_append] at hnd
        exact fun hm => hnd.2.2 hm (List.mem_cons_self _ _)
      have hset : assocSet acc d.remote_name d = acc ++ [(d.remote_name, d)] := by
        unfold assocSet
        rw [assocHasKey_eq_false acc d.remote_name
          (fun kv hkv he => hnotmem (he ▸ List.mem_map_of_mem Prod.fst hkv))]
        simp
      rw [List.foldl_cons, hd]
      simp only [if_true]
      rw [hset, ih (acc ++ [(d.remote_name, d)])
        (by simpa [List.append_assoc] using hnd)]
      rw [hfil]
      simp [List.append_assoc]
    · have hfil : (d :: rest).filter (fun d => d.enabled) =
          rest.filter (fun d => d.enabled) := by
        simp [List.filter_cons, hd]
      rw [hfil] at hnd
      rw [List.foldl_cons]
      simp only [hd, if_false, Bool.false_eq_true]
      rw [ih acc hnd, hfil]

theorem orderedLoop_spec : ∀ (saved : List String)
    (dict : List (String × DriveConfig)), saved.Nodup →
    orderedLoop saved dict =
      (saved.filterMap (fun n => assocLookup dict n),
       dict.filter (fun kv => !(saved.contains kv.1))) := by
  intro saved
  induction saved with
  | nil =>
    intro dict _
    simp [orderedLoop]
  | cons n rest ih =>
    intro dict hnd
    have hn : n ∉ rest := (List.nodup_cons.mp hnd).1
    have hrest := (List.nodup_cons.mp hnd).2
    unfold orderedLoop
    cases hl : assocLookup dict n with
    | some d0 =>
      rw [ih (assocErase dict n) hrest]
      dsimp only
      refine Prod.ext ?_ ?_
      · show d0 :: (rest.filterMap (fun n' => assocLookup (assocErase dict n) n')) =
          (n :: rest).filterMap (fun n' => assocLookup dict n')
        rw [show ((n :: rest).filterMap (fun n' => assocLookup dict n'))
            = d0 :: rest.filterMap (fun n' => assocLookup dict n') by
          simp [List.filterMap_cons, hl]]
        rw [List.filterMap_congr
          (fun x hx => assocLookup_erase_ne dict n x (fun he => hn (he ▸ hx)))]
      · show (assocErase dict n).filter (fun kv => !(rest.contains kv.1)) =
          dict.filter (fun kv => !((n :: rest).contains kv.1))
        unfold assocErase
        rw [List.filter_filter]
        apply List.filter_congr
        intro kv _
        rw [List.contains_cons]
        cases hkv : (kv.1 == n) <;> cases hc : rest.contains kv.1 <;>
          simp [hkv, hc]
    | none =>
      rw [ih dict hrest]
      refine Prod.ext ?_ ?_
      · show rest.filterMap (fun n' => assocLookup dict n') =
          (n :: rest).filterMap (fun n' => assocLookup dict n')
        rw [show ((n :: rest).filterMap (fun n' => assocLookup dict n'))
            = rest.filterMap (fun n' => assocLookup dict n') by
          simp [List.filterMap_cons, hl]]
      · show dict.filter (fun kv => !(rest.contains kv.1)) =
          dict.filter (fun kv => !((n :: rest).contains kv.1))
        apply List.filter_congr
        intro kv hkv
        have hne : (kv.1 == n) = false := by
          simp [assocLookup_none_keys hl kv hkv]
        rw [List.contains_cons, hne]
        simp

theorem assocLookup_graph (ds : List DriveConfig) (n : String) :
    assocLookup (ds.map (fun d => (d.remote_name, d))) n =
      ds.find? (fun d => d.remote_name == n) := by
  induction ds with
  | nil => rfl
  | cons d rest ih =>
    by_cases hd : d.remote_name = n
    · simp [assocLookup, List.find?, hd]
    · have h1 : (d.remote_name == n) = false := by simp [hd]
      simp only [List.map_cons, assocLookup, List.find?, h1] at *
      exact ih

theorem graph_filter_snd (ds : List DriveConfig) (p : String → Bool) :
    ((ds.map (fun d => (d.remote_name, d))).filter (fun kv => p kv.1)).map
        (fun kv => kv.2)
      = ds.filter (fun d => p d.remote_name) := by
  induction ds with
  | nil => rfl
  | cons d rest ih =>
    by_cases hp : p d.remote_name = true
    · simp [List.filter_cons, hp, ih]
    · have hp2 : p d.remote_name = false := by
        rwa [Bool.not_eq_true] at hp
      simp [List.filter_cons, hp2, ih]

/-- C8.  DisplayOrder reconciliation: the card sequence built at load is the
entries matching ids of the saved order (in the saved order's order, an id
with no matching enabled entry being ignored), followed by every remaining
enabled entry in stable insertion order; disabled entries never appear. -/
theorem display_order_reconciliation :
    ∀ (saved_order : List String) (drives : List DriveConfig),
      saved_order.Nodup →
      ((drives.filter (fun d => d.enabled)).map (fun d => d.remote_name)).Nodup →
      loadDrivesOrder saved_order drives =
        saved_order.filterMap
          (fun n => (drives.filter (fun d => d.enabled)).find?
            (fun d => d.remote_name == n))
        ++ (drives.filter (fun d => d.enabled)).filter
            (fun d => !(saved_order.contains d.remote_name)) := by
  intro saved_order drives h1 h2
  unfold loadDrivesOrder buildDrivesDict
  dsimp only
  rw [buildDrivesDict_aux drives [] (by simpa using h2)]
  rw [List.nil_append, orderedLoop_spec saved_order _ h1]
  dsimp only
  congr 1
  · exact List.filterMap_congr (fun n _ =>
      assocLookup_graph (drives.filter (fun d => d.enabled)) n)
  · exact graph_filter_snd (drives.filter (fun d => d.enabled))
      (fun k => !(saved_order.contains k))

/-- Witness for C8 at a concrete order and entry collection: `"x"` in the
saved order has no matching entry and is ignored, `"c"` is disabled and
dropped, `"d"` is enabled but unsaved and is appended after the ordered
ids. -/
theorem display_order_reconciliation_witness :
    loadDrivesOrder ["b", "x", "a"]
      [⟨"a", "A", "g", true⟩, ⟨"b", "B", "g", true⟩,
       ⟨"c", "C", "g", false⟩, ⟨"d", "D", "g", true⟩]
      = [⟨"b", "B", "g", true⟩, ⟨"a", "A", "g", true⟩, ⟨"d", "D", "g", true⟩] := by
  rw [display_order_reconciliation ["b", "x", "a"]
    [⟨"a", "A", "g", true⟩, ⟨"b", "B", "g", true⟩,
     ⟨"c", "C", "g", false⟩, ⟨"d", "D", "g", true⟩] (by decide) (by decide)]
  decide

/-! ## C6: geometry null round-trip and serialization skipping -/

theorem prepareForToml_nil : prepareForToml [] = [] := by
  simp [prepareForToml]

theorem prepareListItems_nil : prepareListItems [] = [] := by
  simp [prepareListItems]

theorem prepareForToml_cons_vstr (k : String) (s : String) (rest : PyDict) :
    prepareForToml ((k, PyVal.vstr s) :: rest) = (k, .vstr s) :: prepareForToml rest := by
  simp [prepareForToml]

theorem prepareForToml_cons_vint (k : String) (n : Int) (rest : PyDict) :
    prepareForToml ((k, PyVal.vint n) :: rest) = (k, .vint n) :: prepareForToml rest := by
  simp [prepareForToml]

theorem prepareForToml_cons_vbool (k : String) (b : Bool) (rest : PyDict) :
    prepareForToml ((k, PyVal.vbool b) :: rest) = (k, .vbool b) :: prepareForToml rest := by
  simp [prepareForToml]

theorem prepareForToml_cons_vlist (k : String) (xs : List PyVal) (rest : PyDict) :
    prepareForToml ((k, PyVal.vlist xs) :: rest)
      = (k, .vlist (prepareListItems xs)) :: prepareForToml rest := by
  simp [prepareForToml]

theorem prepareForToml_cons_vnone (k : String) (rest : PyDict) :
    prepareForToml ((k, PyVal.vnone) :: rest)
      = if (k == "window_geometry") then (k, PyVal.vdict []) :: prepareForToml rest
        else prepareForToml rest := by
  simp [prepareForToml]

theorem prepareForToml_cons_vdict (k : String) (d : PyDict) (rest : PyDict) :
    prepareForToml ((k, PyVal.vdict d) :: rest)
      = if (!(prepareForToml d).isEmpty || (k == "window_geometry"))
        then (k, PyVal.vdict (prepareForToml d)) :: prepareForToml rest
        else prepareForToml rest := by
  simp [prepareForToml]

theorem assocLookup_cons_self {α : Type} (k₀ : String) (v₀ : α)
    (rest : List (String × α)) : assocLookup ((k₀, v₀) :: rest) k₀ = some v₀ := by
  simp [assocLookup, List.find?]

theorem assocLookup_cons_ne {α : Type} (k₀ : String) (v₀ : α)
    (rest : List (String × α)) (k : String) (h : k₀ ≠ k) :
    assocLookup ((k₀, v₀) :: rest) k = assocLookup rest k := by
  have h2 : (k₀ == k) = false := by simp [h]
  simp [assocLookup, List.find?, h2]

theorem keys_prepareForToml_subset : ∀ {d : PyDict} {k : String},
    k ∈ (prepareForToml d).map Prod.fst → k ∈ d.map Prod.fst := by
  intro d
  induction d with
  | nil =>
    intro k h
    rw [prepareForToml_nil] at h
    simp at h
  | cons kv rest ih =>
    intro k h
    rcases kv with ⟨k₀, v₀⟩
    cases v₀ with
    | vnone =>
      rw [prepareForToml_cons_vnone] at h
      by_cases hg : (k₀ == "window_geometry") = true
      · rw [if_pos hg] at h
        simp only [List.map_cons] at h ⊢
        rcases List.mem_cons.mp h with he | h2
        · exact List.mem_cons.mpr (Or.inl he)
        · exact List.mem_cons.mpr (Or.inr (ih h2))
      · rw [if_neg hg] at h
        simp only [List.map_cons]
        exact List.mem_cons.mpr (Or.inr (ih h))
    | vdict dd =>
      rw [prepareForToml_cons_vdict] at h
      by_cases hg : (!(prepareForToml dd).isEmpty || (k₀ == "window_geometry")) = true
      · rw [if_pos hg] at h
        simp only [List.map_cons] at h ⊢
        rcases List.mem_cons.mp h with he | h2
        · exact List.mem_cons.mpr (Or.inl he)
        · exact List.mem_cons.mpr (Or.inr (ih h2))
      · rw [if_neg hg] at h
        simp only [List.map_cons]
        exact List.mem_cons.mpr (Or.inr (ih h))
    | vstr s =>
      rw [prepareForToml_cons_vstr] at h
      simp only [List.map_cons] at h ⊢
      rcases List.mem_cons.mp h with he | h2
      · exact List.mem_cons.mpr (Or.inl he)
      · exact List.mem_cons.mpr (Or.inr (ih h2))
    | vint n =>
      rw [prepareForToml_cons_vint] at h
      simp only [List.map_cons] at h ⊢
      rcases List.mem_cons.mp h with he | h2
      · exact List.mem_cons.mpr (Or.inl he)
      · exact List.mem_cons.mpr (Or.inr (ih h2))
    | vbool b =>
      rw [prepareForToml_cons_vbool] at h
      simp only [List.map_cons] at h ⊢
      rcases List.mem_cons.mp h with he | h2
      · exact List.mem_cons.mpr (Or.inl he)
      · exact List.mem_cons.mpr (Or.inr (ih h2))
    | vlist xs =>
      rw [prepareForToml_cons_vlist] at h
      simp only [List.map_cons] at h ⊢
      rcases List.mem_cons.mp h with he | h2
      · exact List.mem_cons.mpr (Or.inl he)
      · exact List.mem_cons.mpr (Or.inr (ih h2))

theorem assocLookup_eq_none_of_not_mem_keys {α : Type} (d : List (String × α))
    (k : String) (h : k ∉ d.map Prod.fst) : assocLookup d k = none := by
  unfold assocLookup
  rw [Option.map_eq_none', List.find?_eq_none]
  intro kv hkv
  simp only [beq_iff_eq]
  exact fun he => h (he ▸ List.mem_map_of_mem Prod.fst hkv)

/-- Key lemma: looking a key up in the prepared dictionary is looking it up
in the original and applying the entry-wise preparation. -/
theorem assocLookup_prepareForToml : ∀ (config : PyDict) (k : String),
    (config.map Prod.fst).Nodup →
    assocLookup (prepareForToml config) k =
      (assocLookup config k).bind (fun v => prepEntryVal k v) := by
  intro config
  induction config with
  | nil =>
    intro k _
    rw [prepareForToml_nil]
    rfl
  | cons kv rest ih =>
    intro k hnd
    rcases kv with ⟨k₀, v₀⟩
    simp only [List.map_cons] at hnd
    have hk0 : k₀ ∉ rest.map Prod.fst := (List.nodup_cons.mp hnd).1
    have hnd' : (rest.map Prod.fst).Nodup := (List.nodup_cons.mp hnd).2
    have hdropped : k₀ ∉ (prepareForToml rest).map Prod.fst :=
      fun hm => hk0 (keys_prepareForToml_subset hm)
    by_cases hk : k₀ = k
    · subst hk
      rw [assocLookup_cons_self]
      cases v₀ with
      | vnone =>
        rw [prepareForToml_cons_vnone]
        by_cases hg : (k₀ == "window_geometry") = true
        · rw [if_pos hg, assocLookup_cons_self]
          simp [prepEntryVal, hg]
        · rw [if_neg hg, assocLookup_eq_none_of_not_mem_keys _ _ hdropped]
          have hg2 : (k₀ == "window_geometry") = false := by
            rwa [Bool.not_eq_true] at hg
          simp [prepEntryVal, hg2]
      | vdict dd =>
        rw [prepareForToml_cons_vdict]
        by_cases hg : (!(prepareForToml dd).isEmpty || (k₀ == "window_geometry")) = true
        · rw [if_pos hg, assocLookup_cons_self]
          simp [prepEntryVal, hg]
        · rw [if_neg hg, assocLookup_eq_none_of_not_mem_keys _ _ hdropped]
          have hg2 : (!(prepareForToml dd).isEmpty || (k₀ == "window_geometry")) = false := by
            rwa [Bool.not_eq_true] at hg
          simp only [Option.some_bind, prepEntryVal, hg2]
          rfl
      | vstr s => rw [prepareForToml_cons_vstr, assocLookup_cons_self]; rfl
      | vint n => rw [prepareForToml_cons_vint, assocLookup_cons_self]; rfl
      | vbool b => rw [prepareForToml_cons_vbool, assocLookup_cons_self]; rfl
      | vlist xs => rw [prepareForToml_cons_vlist, assocLookup_cons_self]; rfl
    · rw [assocLookup_cons_ne _ _ _ _ hk]
      cases v₀ with
      | vnone =>
        rw [prepareForToml_cons_vnone]
        by_cases hg : (k₀ == "window_geometry") = true
        · rw [if_pos hg, assocLookup_cons_ne _ _ _ _ hk]
          exact ih k hnd'
        · rw [if_neg hg]
          exact ih k hnd'
      | vdict dd =>
        rw [prepareForToml_cons_vdict]
        by_cases hg : (!(prepareForToml dd).isEmpty || (k₀ == "window_geometry")) = true
        · rw [if_pos hg, assocLookup_cons_ne _ _ _ _ hk]
          exact ih k hnd'
        · rw [if_neg hg]
          exact ih k hnd'
      | vstr s => rw [prepareForToml_cons_vstr, assocLookup_cons_ne _ _ _ _ hk]; exact ih k hnd'
      | vint n => rw [prepareForToml_cons_vint, assocLookup_cons_ne _ _ _ _ hk]; exact ih k hnd'
      | vbool b => rw [prepareForToml_cons_vbool, assocLookup_cons_ne _ _ _ _ hk]; exact ih k hnd'
      | vlist xs => rw [prepareForToml_cons_vlist, assocLookup_cons_ne _ _ _ _ hk]; exact ih k hnd'

theorem prepareForToml_to_dict (d : DriveConfig) :
    prepareForToml (DriveConfig.to_dict d) = DriveConfig.to_dict d := by
  simp [DriveConfig.to_dict, prepareForToml_cons_vstr, prepareForToml_cons_vbool,
    prepareForToml_nil]

theorem prepareListItems_drives (ds : List DriveConfig) :
    prepareListItems (ds.map (fun d => PyVal.vdict d.to_dict))
      = ds.map (fun d => PyVal.vdict d.to_dict) := by
  induction ds with
  | nil => simpa using prepareListItems_nil
  | cons d rest ih => simp [prepareListItems, prepareForToml_to_dict, ih]

theorem prepareListItems_strs (l : List String) :
    prepareListItems (l.map PyVal.vstr) = l.map PyVal.vstr := by
  induction l with
  | nil => simpa using prepareListItems_nil
  | cons s rest ih => simp [prepareListItems, ih]

theorem from_dict_to_dict (d : DriveConfig) :
    DriveConfig.from_dict (DriveConfig.to_dict d) = some d := by
  rcases d with ⟨rn, dn, dt, en⟩
  simp [DriveConfig.from_dict, DriveConfig.to_dict, assocLookup, List.find?]

theorem mapOption_from_to (ds : List DriveConfig) :
    mapOption (fun item =>
      match item with
      | PyVal.vdict dd => DriveConfig.from_dict dd
      | _ => none) (ds.map (fun d => PyVal.vdict d.to_dict)) = some ds := by
  induction ds with
  | nil => rfl
  | cons d rest ih =>
    simp only [List.map_cons, mapOption, from_dict_to_dict, ih]

theorem pyStrList_map (l : List String) :
    pyStrList (.vlist (l.map PyVal.vstr)) = some l := by
  induction l with
  | nil => rfl
  | cons s rest ih =>
    simp only [pyStrList, List.map_cons, mapOption] at *
    simp [ih]

theorem prepareForToml_toPyDict (c : Config) (r : GeomRect)
    (hg : c.geometry = some r) :
    prepareForToml c.toPyDict = c.toPyDict := by
  rcases c with ⟨ds, ord, geo, st, ar, ras⟩
  simp only at hg
  subst hg
  simp [Config.toPyDict, GeomRect.toPy, prepareForToml_cons_vlist,
    prepareForToml_cons_vdict, prepareForToml_cons_vbool,
    prepareForToml_cons_vint, prepareForToml_cons_vstr, prepareForToml_nil,
    prepareListItems_drives, prepareListItems_strs]

/-- C6.  Geometry null round-trip: `_prepare_for_toml` normalizes a null
`window_geometry` to the always-emitted empty table while omitting every
other null-valued or empty-table key; consequently saving a `Config` with
null geometry and re-loading yields a geometry callers observe as `None`
(never a non-null empty object), and a `Config` with non-null geometry
round-trips to an equal `Config` through save followed by load. -/
theorem geometry_null_roundtrip :
    (∀ (config : PyDict), (config.map Prod.fst).Nodup →
      assocLookup config "window_geometry" = some .vnone →
      assocLookup (prepareForToml config) "window_geometry" = some (.vdict [])) ∧
    (∀ (config : PyDict) (k : String), (config.map Prod.fst).Nodup →
      k ≠ "window_geometry" → assocLookup config k = some .vnone →
      assocLookup (prepareForToml config) k = none) ∧
    (∀ (config : PyDict) (k : String) (d : PyDict), (config.map Prod.fst).Nodup →
      k ≠ "window_geometry" → assocLookup config k = some (.vdict d) →
      prepareForToml d = [] →
      assocLookup (prepareForToml config) k = none) ∧
    (∀ c : Config, c.geometry = none →
      getWindowGeometry (saveLoadConfig c) = .vnone) ∧
    (∀ c : Config, c.geometry ≠ none → readConfig (saveLoadConfig c) = some c) := by
  refine ⟨?_, ?_, ?_, ?_, ?_⟩
  · intro config hnd hl
    rw [assocLookup_prepareForToml config _ hnd, hl]
    simp [prepEntryVal]
  · intro config k hnd hk hl
    rw [assocLookup_prepareForToml config _ hnd, hl]
    have hk2 : (k == "window_geometry") = false := by simp [hk]
    simp [prepEntryVal, hk2]
  · intro config k d hnd hk hl hd
    rw [assocLookup_prepareForToml config _ hnd, hl]
    have hk2 : (k == "window_geometry") = false := by simp [hk]
    simp [prepEntryVal, hk2, hd]
  · intro c hg
    rcases c with ⟨ds, ord, geo, st, ar, ras⟩
    simp only at hg
    subst hg
    simp [saveLoadConfig, ConfigManager.save_config, loadConfig, Config.toPyDict,
      prepareForToml_cons_vlist, prepareForToml_cons_vnone,
      prepareForToml_cons_vbool, prepareForToml_cons_vint, prepareForToml_nil,
      getWindowGeometry, assocGetD, assocLookup, List.find?]
  · intro c hg
    obtain ⟨r, hr⟩ : ∃ r, c.geometry = some r := by
      cases hgeo : c.geometry with
      | none => exact absurd hgeo hg
      | some r => exact ⟨r, rfl⟩
    have hprep : prepareForToml c.toPyDict = c.toPyDict :=
      prepareForToml_toPyDict c r hr
    show readConfig (loadConfig (FileState.stored (prepareForToml c.toPyDict))) = some c
    rw [hprep]
    rcases c with ⟨ds, ord, geo, st, ar, ras⟩
    simp only at hr
    subst hr
    have h1 : getDrives (Config.toPyDict ⟨ds, ord, some r, st, ar, ras⟩) = some ds := by
      simp [getDrives, Config.toPyDict, assocGetD, assocLookup, List.find?,
        mapOption_from_to]
    have h2 : pyStrList (getDriveOrder (Config.toPyDict ⟨ds, ord, some r, st, ar, ras⟩))
        = some ord := by
      simp [getDriveOrder, Config.toPyDict, assocGetD, assocLookup, List.find?,
        pyStrList_map]
    have h3 : getWindowGeometry (Config.toPyDict ⟨ds, ord, some r, st, ar, ras⟩)
        = r.toPy := by
      simp [getWindowGeometry, Config.toPyDict, assocGetD, assocLookup,
        List.find?, GeomRect.toPy]
    have h4 : getStayOnTop (Config.toPyDict ⟨ds, ord, some r, st, ar, ras⟩)
        = .vbool st := by
      simp [getStayOnTop, Config.toPyDict, assocGetD, assocLookup, List.find?]
    have h5 : getAutoRefreshInterval (Config.toPyDict ⟨ds, ord, some r, st, ar, ras⟩)
        = .vint ar := by
      simp [getAutoRefreshInterval, Config.toPyDict, assocGetD, assocLookup,
        List.find?]
    have h6 : getRunAtStartup (Config.toPyDict ⟨ds, ord, some r, st, ar, ras⟩)
        = .vbool ras := by
      simp [getRunAtStartup, Config.toPyDict, assocGetD, assocLookup, List.find?]
    rw [show loadConfig (FileState.stored (Config.toPyDict ⟨ds, ord, some r, st, ar, ras⟩))
        = Config.toPyDict ⟨ds, ord, some r, st, ar, ras⟩ from rfl]
    rw [readConfig, h1, h2, h3, h4, h5, h6]
    rcases r with ⟨gx, gy, gw, gh⟩
    simp [decodeGeometry, GeomRect.toPy]

/-- Witness for C6: the non-null-geometry round trip at a concrete
configuration. -/
theorem geometry_null_roundtrip_witness :
    readConfig (saveLoadConfig
      ⟨[⟨"gd", "Google", "googledrive", true⟩], ["gd"],
        some ⟨10, 20, 640, 480⟩, false, 300, false⟩)
      = some ⟨[⟨"gd", "Google", "googledrive", true⟩], ["gd"],
        some ⟨10, 20, 640, 480⟩, false, 300, false⟩ := by
  exact geometry_null_roundtrip.2.2.2.2
    ⟨[⟨"gd", "Google", "googledrive", true⟩], ["gd"],
      some ⟨10, 20, 640, 480⟩, false, 300, false⟩ (by simp)

/-! ## C7: every setter is a full load-mutate-save cycle -/

theorem length_prepareForToml_le : ∀ (d : PyDict),
    (prepareForToml d).length ≤ d.length := by
  intro d
  induction d with
  | nil => rw [prepareForToml_nil]
  | cons kv rest ih =>
    rcases kv with ⟨k₀, v₀⟩
    cases v₀ with
    | vnone =>
      rw [prepareForToml_cons_vnone]
      split
      · simpa using Nat.succ_le_succ ih
      · exact Nat.le_trans ih (Nat.le_succ _)
    | vdict dd =>
      rw [prepareForToml_cons_vdict]
      split
      · simpa using Nat.succ_le_succ ih
      · exact Nat.le_trans ih (Nat.le_succ _)
    | vstr s => rw [prepareForToml_cons_vstr]; simpa using Nat.succ_le_succ ih
    | vint n => rw [prepareForToml_cons_vint]; simpa using Nat.succ_le_succ ih
    | vbool b => rw [prepareForToml_cons_vbool]; simpa using Nat.succ_le_succ ih
    | vlist xs => rw [prepareForToml_cons_vlist]; simpa using Nat.succ_le_succ ih

theorem prep_eq_self_of_forall : ∀ (d : PyDict),
    (∀ e ∈ d, prepEntry e = some e) → prepareForToml d = d := by
  intro d
  induction d with
  | nil => intro _; exact prepareForToml_nil
  | cons kv rest ih =>
    intro h
    rcases kv with ⟨k₀, v₀⟩
    have hhead := h (k₀, v₀) (List.mem_cons_self _ _)
    have htail : prepareForToml rest = rest :=
      ih (fun e he => h e (List.mem_cons_of_mem _ he))
    have hv : prepEntryVal k₀ v₀ = some v₀ := by
      simp only [prepEntry, Option.map_eq_some'] at hhead
      obtain ⟨v', hv', heq⟩ := hhead
      have hveq : v' = v₀ := by
        have := congrArg Prod.snd heq
        simpa using this
      rwa [hveq] at hv'
    cases v₀ with
    | vnone =>
      exfalso
      simp only [prepEntryVal] at hv
      split at hv <;> simp at hv
    | vdict dd =>
      simp only [prepEntryVal] at hv
      split at hv
      case isTrue hc =>
        have hdd : prepareForToml dd = dd := by
          have h2 := Option.some.inj hv
          injection h2
        rw [prepareForToml_cons_vdict, if_pos hc, hdd, htail]
      case isFalse => exact absurd hv (by simp)
    | vstr s => rw [prepareForToml_cons_vstr, htail]
    | vint n => rw [prepareForToml_cons_vint, htail]
    | vbool b => rw [prepareForToml_cons_vbool, htail]
    | vlist xs =>
      have hxs : prepareListItems xs = xs := by
        simp only [prepEntryVal] at hv
        have h2 := Option.some.inj hv
        injection h2
      rw [prepareForToml_cons_vlist, hxs, htail]

theorem forall_of_prep_eq_self : ∀ (d : PyDict), prepareForToml d = d →
    ∀ e ∈ d, prepEntry e = some e := by
  intro d
  induction d with
  | nil => intro _ e he; exact absurd he (List.not_mem_nil e)
  | cons kv rest ih =>
    intro h e he
    rcases kv with ⟨k₀, v₀⟩
    cases v₀ with
    | vstr s =>
      rw [prepareForToml_cons_vstr] at h
      injection h with hhead htail
      rcases List.mem_cons.mp he with rfl | he'
      · simp [prepEntry, prepEntryVal]
      · exact ih htail e he'
    | vint n =>
      rw [prepareForToml_cons_vint] at h
      injection h with hhead htail
      rcases List.mem_cons.mp he with rfl | he'
      · simp [prepEntry, prepEntryVal]
      · exact ih htail e he'
    | vbool b =>
      rw [prepareForToml_cons_vbool] at h
      injection h with hhead htail
      rcases List.mem_cons.mp he with rfl | he'
      · simp [prepEntry, prepEntryVal]
      · exact ih htail e he'
    | vlist xs =>
      rw [prepareForToml_cons_vlist] at h
      injection h with hhead htail
      have hxs : prepareListItems xs = xs := by
        have h2 : PyVal.vlist (prepareListItems xs) = PyVal.vlist xs := by
          have := congrArg Prod.snd hhead
          simpa using this
        injection h2
      rcases List.mem_cons.mp he with rfl | he'
      · simp [prepEntry, prepEntryVal, hxs]
      · exact ih htail e he'
    | vnone =>
      rw [prepareForToml_cons_vnone] at h
      split at h
      case isTrue hg =>
        exfalso
        injection h with hhead _
        have := congrArg Prod.snd hhead
        simp at this
      case isFalse hg =>
        exfalso
        have hle := length_prepareForToml_le rest
        rw [h, List.length_cons] at hle
        omega
    | vdict dd =>
      rw [prepareForToml_cons_vdict] at h
      split at h
      case isTrue hc =>
        injection h with hhead htail
        have hdd : prepareForToml dd = dd := by
          have h2 : PyVal.vdict (prepareForToml dd) = PyVal.vdict dd := by
            have := congrArg Prod.snd hhead
            simpa using this
          injection h2
        rcases List.mem_cons.mp he with rfl | he'
        · have hval : prepEntryVal k₀ (PyVal.vdict dd) = some (PyVal.vdict dd) := by
            simp only [prepEntryVal]
            rw [if_pos hc, hdd]
          simp [prepEntry, hval]
        · exact ih htail e he'
      case isFalse hc =>
        exfalso
        have hle := length_prepareForToml_le rest
        rw [h, List.length_cons] at hle
        omega

theorem prep_assocSet_clean (d : PyDict) (k : String) (v : PyVal)
    (hd : prepareForToml d = d) (hv : prepEntry (k, v) = some (k, v)) :
    prepareForToml (assocSet d k v) = assocSet d k v := by
  apply prep_eq_self_of_forall
  intro e he
  unfold assocSet at he
  by_cases hk : assocHasKey d k = true
  · rw [if_pos hk] at he
    rw [List.mem_map] at he
    obtain ⟨e₀, he₀, hme⟩ := he
    by_cases hke : (e₀.1 == k) = true
    · rw [if_pos hke] at hme
      exact hme ▸ hv
    · rw [if_neg hke] at hme
      exact hme ▸ forall_of_prep_eq_self d hd e₀ he₀
  · rw [if_neg hk] at he
    rcases List.mem_append.mp he with he' | he'
    · exact forall_of_prep_eq_self d hd e he'
    · have := List.mem_singleton.mp he'
      exact this ▸ hv

theorem prepEntry_drives_val (ds : List DriveConfig) :
    prepEntry ("drives", PyVal.vlist (ds.map (fun d => .vdict d.to_dict)))
      = some ("drives", .vlist (ds.map (fun d => .vdict d.to_dict))) := by
  simp [prepEntry, prepEntryVal, prepareListItems_drives]

theorem prepEntry_order_val (o : List String) :
    prepEntry ("drive_order", PyVal.vlist (o.map PyVal.vstr))
      = some ("drive_order", .vlist (o.map PyVal.vstr)) := by
  simp [prepEntry, prepEntryVal, prepareListItems_strs]

theorem prepEntry_stay_val (b : Bool) :
    prepEntry ("stay_on_top", PyVal.vbool b) = some ("stay_on_top", .vbool b) := by
  simp [prepEntry, prepEntryVal]

theorem prepareForToml_rectDict (r : GeomRect) :
    prepareForToml [("x", PyVal.vint r.x), ("y", PyVal.vint r.y),
      ("width", PyVal.vint r.width), ("height", PyVal.vint r.height)]
      = [("x", PyVal.vint r.x), ("y", PyVal.vint r.y),
      ("width", PyVal.vint r.width), ("height", PyVal.vint r.height)] := by
  simp [prepareForToml_cons_vint, prepareForToml_nil]

theorem prepEntry_geom_val (g : Option GeomRect) :
    prepEntry ("window_geometry",
        if pyTruthy (geomArg g) then geomArg g else PyVal.vdict [])
      = some ("window_geometry",
        if pyTruthy (geomArg g) then geomArg g else PyVal.vdict []) := by
  cases g with
  | none =>
    simp [geomArg, pyTruthy, prepEntry, prepEntryVal, prepareForToml_nil]
  | some r =>
    simp [geomArg, GeomRect.toPy, pyTruthy, prepEntry, prepEntryVal,
      prepareForToml_rectDict]

theorem prepareForToml_default : prepareForToml defaultConfig = defaultConfig := by
  simp [defaultConfig, prepareForToml_cons_vlist, prepareForToml_cons_vdict,
    prepareForToml_cons_vbool, prepareForToml_cons_vint, prepareForToml_nil,
    prepareListItems_nil]

theorem applyOp_config (m : ConfigManager) (op : SetterOp) :
    (applyOp m op).config = opMutation m.config op := by
  cases op <;> rfl

theorem applyOp_file (m : ConfigManager) (op : SetterOp) :
    (applyOp m op).file = .stored (prepareForToml (opMutation m.config op)) := by
  cases op <;> rfl

theorem managerInv_applyOp {m : ConfigManager} (h : managerInv m) (op : SetterOp) :
    managerInv (applyOp m op) := by
  have hclean : prepareForToml (opMutation m.config op) = opMutation m.config op := by
    cases op with
    | setDrives ds => exact prep_assocSet_clean _ _ _ h.2 (prepEntry_drives_val ds)
    | setDriveOrder o => exact prep_assocSet_clean _ _ _ h.2 (prepEntry_order_val o)
    | setWindowGeometry g => exact prep_assocSet_clean _ _ _ h.2 (prepEntry_geom_val g)
    | setStayOnTop b => exact prep_assocSet_clean _ _ _ h.2 (prepEntry_stay_val b)
  refine ⟨?_, ?_⟩
  · rw [applyOp_file, applyOp_config]
    exact hclean
  · rw [applyOp_config]
    exact hclean

theorem managerInv_init {f₀ : FileState} (h : cleanFile f₀) :
    managerInv (ConfigManager.init f₀) := by
  cases f₀ with
  | absent => exact ⟨rfl, prepareForToml_default⟩
  | corrupt => exact ⟨rfl, prepareForToml_default⟩
  | stored d => exact ⟨rfl, h⟩

theorem managerInv_applyOps : ∀ (ops : List SetterOp) (m : ConfigManager),
    managerInv m → managerInv (applyOps m ops) := by
  intro ops
  induction ops with
  | nil => intro m h; exact h
  | cons op rest ih =>
    intro m h
    exact ih _ (managerInv_applyOp h op)

/-- C7.  Setter cycle: every individual setter immediately rewrites the
backing file with the serialized result of applying its one mutation to the
current configuration (no batching), and — for any run starting from a file
the serializer reproduces verbatim (absent and corrupt files qualify, as
does every file the application itself ever writes) — the file each setter
call writes equals the result of re-loading the current file contents,
applying that one mutation, and saving. -/
theorem setter_load_mutate_save_cycle :
    (∀ (m : ConfigManager) (op : SetterOp),
      (applyOp m op).file = .stored (prepareForToml (opMutation m.config op))) ∧
    (∀ (f₀ : FileState), cleanFile f₀ →
      ∀ (ops : List SetterOp) (op : SetterOp),
        (applyOp (applyOps (ConfigManager.init f₀) ops) op).file =
          specSetterFile (applyOps (ConfigManager.init f₀) ops).file op) := by
  constructor
  · exact applyOp_file
  · intro f₀ hclean ops op
    have hinv := managerInv_applyOps ops _ (managerInv_init hclean)
    rw [applyOp_file]
    unfold specSetterFile
    rw [hinv.1]

/-- Witness for C7: starting from a missing file, after one
`set_stay_on_top` call, a `set_drive_order` call writes exactly the
load-mutate-save result of the current file. -/
theorem setter_load_mutate_save_cycle_witness :
    (applyOp (applyOps (ConfigManager.init .absent) [SetterOp.setStayOnTop true])
        (SetterOp.setDriveOrder ["a"])).file =
      specSetterFile (applyOps (ConfigManager.init .absent)
        [SetterOp.setStayOnTop true]).file (SetterOp.setDriveOrder ["a"]) := by
  exact setter_load_mutate_save_cycle.2 .absent trivial
    [SetterOp.setStayOnTop true] (SetterOp.setDriveOrder ["a"])

end CheckCloudDrives
